import Mathlib

/-!
Shallow embedding of the resourcery resource pool (resourcery.go).

A `Resource` is modelled by its identity and the value its IsHealthy()
method returns at the observation points of the pool code. The Pool is the
pair of the pending channel handoffs (the unbuffered `resourceQueue`,
modelled as the list of values the channel will deliver, in order) and the
`resourceCount` integer. Go `select` nondeterminism in `GetResource`
(when both the resource case and the ctx.Done case are ready) is modelled
by an explicit schedule of boolean choices; the cancellable context is
modelled by the loop iteration index at which Done fires (if ever) plus
which distinguishable error Err() reports. Terminate() calls are recorded
as output lists.
-/

namespace Resourcery

/-- A resource as seen through the capability interface: an identity plus
the boolean its IsHealthy() method returns when the pool consults it. -/
structure Resource where
  id : Nat
  healthy : Bool
deriving DecidableEq, Repr

/-- The state of a Pool: the pending handoffs of the unbuffered
resourceQueue channel (in delivery order) and the resourceCount field. -/
structure PoolState where
  queue : List Resource
  resourceCount : Int
deriving DecidableEq, Repr

/-- NewPool: empty queue, zero count. -/
def newPool : PoolState :=
  { queue := [], resourceCount := 0 }

/-- AddResource: rejects unhealthy resources with an error and no state
change; otherwise increments the count and hands the resource to the
queue. The final component records the Terminate() calls made by this
operation (the Go code makes none in AddResource). -/
def addResource (st : PoolState) (res : Resource) :
    PoolState × Option String × List Resource :=
  if !res.healthy then
    (st, some "Cannot add unhealthy resources to the pool", [])
  else
    ({ queue := st.queue ++ [res], resourceCount := st.resourceCount + 1 },
      none, [])

/-- The two distinguishable errors context.Err() can report. -/
inductive CtxErr where
  | canceled
  | deadlineExceeded
deriving DecidableEq, Repr

/-- A cancellable-wait context: the loop iteration from which Done() is
closed (none = never), and which error Err() reports once done. -/
structure Ctx where
  doneAt : Option Nat
  err : CtxErr
deriving DecidableEq, Repr

/-- Whether the context is done at loop iteration i. -/
def Ctx.isDone (c : Ctx) (i : Nat) : Bool :=
  match c.doneAt with
  | none => false
  | some k => decide (k ≤ i)

/-- How a GetResource call ends: it returns the (res, err) pair, or it
blocks forever (queue exhausted, context never done). -/
inductive GetOutcome where
  | returned (res : Option Resource) (err : Option CtxErr)
  | blocked
deriving DecidableEq, Repr

/-- The retrieval loop of GetResource. Arguments: the context, the
schedule resolving select races (head is consulted each iteration; true
means the resource case wins when both are ready), the iteration index,
the current resourceCount, the Terminate() calls made so far, and the
remaining queue. Each delivered resource decrements the count; healthy
resources are returned, unhealthy ones are terminated and the loop
continues; the ctx.Done case returns ctx.Err() with no resource. -/
def getLoop (ctx : Ctx) (sched : List Bool) (i : Nat) (count : Int)
    (term : List Resource) :
    List Resource → GetOutcome × PoolState × List Resource
  | [] =>
    match ctx.doneAt with
    | none => (.blocked, { queue := [], resourceCount := count }, term)
    | some _ =>
      (.returned none (some ctx.err),
        { queue := [], resourceCount := count }, term)
  | res :: rest =>
    if ctx.isDone i && !(sched.headD true) then
      (.returned none (some ctx.err),
        { queue := res :: rest, resourceCount := count }, term)
    else if res.healthy then
      (.returned (some res) none,
        { queue := rest, resourceCount := count - 1 }, term)
    else
      getLoop ctx sched.tail (i + 1) (count - 1) (term ++ [res]) rest

/-- GetResource: run the retrieval loop on the pool state. Returns the
outcome, the resulting pool state, and the resources terminated. -/
def getResource (ctx : Ctx) (sched : List Bool) (st : PoolState) :
    GetOutcome × PoolState × List Resource :=
  getLoop ctx sched 0 st.resourceCount [] st.queue

/-- The drain loop of Shutdown: receives until the channel would block,
terminating each resource synchronously; resourceCount is not touched. -/
def shutdownLoop (count : Int) (term : List Resource) :
    List Resource → PoolState × List Resource
  | [] => ({ queue := [], resourceCount := count }, term)
  | res :: rest => shutdownLoop count (term ++ [res]) rest

/-- Shutdown: drain every currently queued resource, terminating each on
the calling flow of control; returns the final state and the list of
Terminate() calls made. -/
def shutdown (st : PoolState) : PoolState × List Resource :=
  shutdownLoop st.resourceCount [] st.queue

/-- Size: returns the resourceCount snapshot. -/
def size (st : PoolState) : Int :=
  st.resourceCount

/-- The Size invariant of the spec: the count equals the number of
resources enqueued and not yet dequeued. -/
def sizeInvariant (st : PoolState) : Prop :=
  st.resourceCount = (st.queue.length : Int)

/-- An already-expired context reporting deadline exceeded. -/
def expiredCtx : Ctx :=
  { doneAt := some 0, err := CtxErr.deadlineExceeded }

/-- A pool operation in a sequential client trace. -/
inductive Op where
  | add (res : Resource)
  | get
deriving DecidableEq, Repr

/-- Run a sequence of AddResource / GetResource calls from a state,
counting the successful adds and the successful gets. Each get is a
GetResource call under an already-expired context with the default
schedule, so it takes a queued resource when one is available and
otherwise fails instead of blocking. -/
def runOps : List Op → PoolState → PoolState × Nat × Nat
  | [], st => (st, 0, 0)
  | Op.add res :: ops, st =>
    let a := addResource st res
    let k := runOps ops a.1
    (k.1, k.2.1 + (if a.2.1.isNone then 1 else 0), k.2.2)
  | Op.get :: ops, st =>
    let g := getResource expiredCtx [] st
    let s : Nat := match g.1 with
      | GetOutcome.returned (some _) none => 1
      | _ => 0
    let k := runOps ops g.2.1
    (k.1, k.2.1, k.2.2 + s)

/-- The population loop of NewWizard: call the factory (modelled by the
result of its j-th invocation) n more times starting at call index i,
adding each produced resource; stop with the error on a factory error or
a rejected insertion. -/
def newWizardLoop (factory : Nat → Except String Resource) :
    Nat → Nat → PoolState → PoolState × Option String
  | _, 0, p => (p, none)
  | i, n + 1, p =>
    match factory i with
    | Except.error e => (p, some e)
    | Except.ok res =>
      match addResource p res with
      | (p2, none, _) => newWizardLoop factory (i + 1) n p2
      | (_, some e, _) => (p, some e)

/-- The Wizard: its pool and the originally requested resource count. -/
structure WizardState where
  pool : PoolState
  resourceCount : Nat
deriving DecidableEq, Repr

/-- NewWizard: populate a fresh pool with resourceCount factory-produced
resources. On any factory error or rejected insertion, no wizard is
returned and the error is surfaced; the partially populated pool state is
the third component. -/
def newWizard (factory : Nat → Except String Resource)
    (resourceCount : Nat) :
    Option WizardState × Option String × PoolState :=
  let r := newWizardLoop factory 0 resourceCount newPool
  match r.2 with
  | some e => (none, some e, r.1)
  | none => (some { pool := r.1, resourceCount := resourceCount }, none, r.1)

/-- The pool lifecycle events of the Monitor. -/
inductive Action where
  | resourceAdded
  | resourceRequested
  | unhealthyResourceTerminated
  | shutdownEvent
deriving DecidableEq, Repr

/-- The event record passed to a Monitor callback. -/
structure ActionMsg where
  time : Nat
  action : Action
deriving DecidableEq, Repr

/-- The Monitor callback NewWizard installs on its pool: on an
UnhealthyResourceTerminated event it invokes the factory once and adds
the produced resource, logging and stopping on a factory error or a
rejected insertion; on every other event it does nothing. Returns the
pool state after the reaction, the log lines emitted, and the number of
factory invocations made. -/
def wizardMonitor (factory : Nat → Except String Resource)
    (pool : PoolState) (msg : ActionMsg) :
    PoolState × List String × Nat :=
  match msg.action with
  | Action.unhealthyResourceTerminated =>
    match factory 0 with
    | Except.error e =>
      (pool, ["Error creating replacement resource: " ++ e], 1)
    | Except.ok res =>
      match addResource pool res with
      | (p2, none, _) => (p2, [], 1)
      | (_, some e, _) =>
        (pool, ["Error adding replacement resource to pool: " ++ e], 1)
  | _ => (pool, [], 0)

/-- Characterization of the retrieval loop: some prefix of length d of the
queue is dequeued; the final state drops that prefix and the count drops
by d; exactly the unhealthy members of the prefix are terminated, in
order; a returned resource is the healthy last element of the prefix,
preceded only by unhealthy ones; a returned error is the context error
and the whole dequeued prefix is unhealthy; a blocked run exhausted an
all-unhealthy queue under a never-done context. -/
theorem getLoop_spec (ctx : Ctx) (q : List Resource) :
    ∀ (sched : List Bool) (i : Nat) (count : Int) (term : List Resource),
    ∃ d : Nat, d ≤ q.length ∧
      (getLoop ctx sched i count term q).2.1 =
        { queue := q.drop d, resourceCount := count - (d : Int) } ∧
      (getLoop ctx sched i count term q).2.2 =
        term ++ (q.take d).filter (fun x => !x.healthy) ∧
      (∀ res e, (getLoop ctx sched i count term q).1 = .returned res e →
        (res = none ∧ e = some ctx.err ∧
          ∀ x ∈ q.take d, x.healthy = false) ∨
        (e = none ∧ ∃ r, res = some r ∧ r.healthy = true ∧ 0 < d ∧
          q.take d = q.take (d - 1) ++ [r] ∧
          ∀ x ∈ q.take (d - 1), x.healthy = false)) ∧
      ((getLoop ctx sched i count term q).1 = .blocked →
        ctx.doneAt = none ∧ d = q.length ∧ ∀ x ∈ q, x.healthy = false) := by
  induction q with
  | nil =>
    intro sched i count term
    cases h : ctx.doneAt with
    | none =>
      refine ⟨0, by simp, by simp [getLoop, h], by simp [getLoop, h], ?_, ?_⟩
      · intro res e hre
        simp [getLoop, h] at hre
      · intro _
        exact ⟨rfl, rfl, by simp⟩
    | some k =>
      refine ⟨0, by simp, by simp [getLoop, h], by simp [getLoop, h], ?_, ?_⟩
      · intro res e hre
        simp only [getLoop, h] at hre
        injection hre with h1 h2
        left
        exact ⟨h1.symm, h2.symm, by simp⟩
      · intro hb
        simp [getLoop, h] at hb
  | cons r rest ih =>
    intro sched i count term
    by_cases hc : ctx.isDone i = true ∧ sched.head?.getD true = false
    · refine ⟨0, by simp, ?_, ?_, ?_, ?_⟩
      · simp [getLoop, hc]
      · simp [getLoop, hc]
      · intro res e hre
        simp only [getLoop] at hre
        rw [List.headD_eq_head?_getD, hc.1, hc.2] at hre
        simp only [Bool.not_false, Bool.true_and, if_true] at hre
        injection hre with h1 h2
        left
        exact ⟨h1.symm, h2.symm, by simp⟩
      · intro hb
        simp [getLoop, hc] at hb
    · by_cases hr : r.healthy = true
      · refine ⟨1, by simp, ?_, ?_, ?_, ?_⟩
        · simp [getLoop, hc, hr]
        · simp [getLoop, hc, hr]
        · intro res e hre
          have hred : getLoop ctx sched i count term (r :: rest) =
              (.returned (some r) none,
                { queue := rest, resourceCount := count - 1 }, term) := by
            simp [getLoop, hc, hr]
          rw [hred] at hre
          injection hre with h1 h2
          right
          exact ⟨h2.symm, r, h1.symm, hr, Nat.one_pos, by simp, by simp⟩
        · intro hb
          simp [getLoop, hc, hr] at hb
      · rw [Bool.not_eq_true] at hr
        obtain ⟨d, hd, hstate, hterm, hret, hblock⟩ :=
          ih sched.tail (i + 1) (count - 1) (term ++ [r])
        have hred : getLoop ctx sched i count term (r :: rest) =
            getLoop ctx sched.tail (i + 1) (count - 1) (term ++ [r]) rest := by
          simp [getLoop, hc, hr]
        refine ⟨d + 1, by simp; omega, ?_, ?_, ?_, ?_⟩
        · rw [hred, hstate, List.drop_succ_cons]
          congr 1
          push_cast
          ring
        · rw [hred, hterm]
          simp [List.take_succ_cons, List.filter_cons, hr, List.append_assoc]
        · intro res e hre
          rw [hred] at hre
          rcases hret res e hre with ⟨hres, he, hall⟩ | ⟨he, r2, hres, hr2, hdpos, htake, hall⟩
          · left
            refine ⟨hres, he, ?_⟩
            intro x hx
            rw [List.take_succ_cons, List.mem_cons] at hx
            rcases hx with rfl | hx
            · exact hr
            · exact hall x hx
          · right
            refine ⟨he, r2, hres, hr2, Nat.succ_pos d, ?_, ?_⟩
            · obtain ⟨d0, rfl⟩ : ∃ d0, d = d0 + 1 :=
                ⟨d - 1, by omega⟩
              simp only [Nat.add_sub_cancel] at htake ⊢
              rw [List.take_succ_cons, List.take_succ_cons, htake]
              simp
            · obtain ⟨d0, rfl⟩ : ∃ d0, d = d0 + 1 :=
                ⟨d - 1, by omega⟩
              simp only [Nat.add_sub_cancel] at hall ⊢
              intro x hx
              rw [List.take_succ_cons, List.mem_cons] at hx
              rcases hx with rfl | hx
              · exact hr
              · exact hall x hx
        · intro hb
          rw [hred] at hb
          obtain ⟨h1, h2, h3⟩ := hblock hb
          refine ⟨h1, by simp [h2], ?_⟩
          intro x hx
          rcases List.mem_cons.mp hx with rfl | hx
          · exact hr
          · exact h3 x hx

/-- Characterization of GetResource in terms of the initial pool state:
the instance of the loop characterization at the call entry. -/
theorem getResource_spec (ctx : Ctx) (sched : List Bool) (st : PoolState) :
    ∃ d : Nat, d ≤ st.queue.length ∧
      (getResource ctx sched st).2.1 =
        { queue := st.queue.drop d,
          resourceCount := st.resourceCount - (d : Int) } ∧
      (getResource ctx sched st).2.2 =
        (st.queue.take d).filter (fun x => !x.healthy) ∧
      (∀ res e, (getResource ctx sched st).1 = .returned res e →
        (res = none ∧ e = some ctx.err ∧
          ∀ x ∈ st.queue.take d, x.healthy = false) ∨
        (e = none ∧ ∃ r, res = some r ∧ r.healthy = true ∧ 0 < d ∧
          st.queue.take d = st.queue.take (d - 1) ++ [r] ∧
          ∀ x ∈ st.queue.take (d - 1), x.healthy = false)) ∧
      ((getResource ctx sched st).1 = .blocked →
        ctx.doneAt = none ∧ d = st.queue.length ∧
        ∀ x ∈ st.queue, x.healthy = false) := by
  obtain ⟨d, hd, h1, h2, h3, h4⟩ :=
    getLoop_spec ctx st.queue sched 0 st.resourceCount []
  exact ⟨d, hd, h1, by simpa using h2, h3, h4⟩

/-- Claim C1: on every GetResource call, a prefix of length d of the
queue is dequeued and the rest is untouched (no refill); the terminated
resources are exactly the unhealthy members of that prefix, each
terminated exactly once (given distinct queued resources); a terminated
resource is never the returned one; the enqueued-count decreases by
exactly one per dequeue, so it strictly decreases by one for each
unhealthy discard (d is the number of discards, plus one when a healthy
resource is returned). -/
theorem C1_unhealthy_dequeue_terminated_once (ctx : Ctx) (sched : List Bool)
    (st : PoolState) (hnd : st.queue.Nodup) :
    ∃ d : Nat, d ≤ st.queue.length ∧
      (getResource ctx sched st).2.1.queue = st.queue.drop d ∧
      (getResource ctx sched st).2.1.resourceCount =
        st.resourceCount - (d : Int) ∧
      (getResource ctx sched st).2.2 =
        (st.queue.take d).filter (fun x => !x.healthy) ∧
      (getResource ctx sched st).2.2.Nodup ∧
      (∀ x ∈ (getResource ctx sched st).2.2, x.healthy = false) ∧
      (∀ r, (getResource ctx sched st).1 = .returned (some r) none →
        r.healthy = true ∧ r ∉ (getResource ctx sched st).2.2 ∧
        (getResource ctx sched st).2.2.length + 1 = d) ∧
      (∀ e, (getResource ctx sched st).1 = .returned none (some e) →
        (getResource ctx sched st).2.2.length = d) := by
  obtain ⟨d, hd, h1, h2, h3, h4⟩ := getResource_spec ctx sched st
  have hmem : ∀ x ∈ (getResource ctx sched st).2.2, x.healthy = false := by
    intro x hx
    rw [h2, List.mem_filter] at hx
    simpa using hx.2
  refine ⟨d, hd, by rw [h1], by rw [h1], h2, ?_, hmem, ?_, ?_⟩
  · rw [h2]
    exact ((List.filter_sublist _).trans (List.take_sublist d st.queue)).nodup hnd
  · intro r hr
    rcases h3 (some r) none hr with ⟨hres, _, _⟩ | ⟨_, r2, hres, hr2, hdpos, htake, hall⟩
    · exact absurd hres (by simp)
    · have hrr : r = r2 := by injection hres
      subst hrr
      refine ⟨hr2, ?_, ?_⟩
      · intro hin
        exact absurd (hmem r hin) (by simp [hr2])
      · rw [h2, htake]
        have hfil : (st.queue.take (d - 1)).filter (fun x => !x.healthy) =
            st.queue.take (d - 1) := by
          rw [List.filter_eq_self]
          intro a ha
          simp [hall a ha]
        have hlen : (st.queue.take (d - 1)).length = d - 1 := by
          rw [List.length_take]
          omega
        rw [List.filter_append, hfil]
        simp [hr2, hlen]
        omega
  · intro e he
    rcases h3 none (some e) he with ⟨_, _, hall⟩ | ⟨_, r2, hres, _⟩
    · have hfil : (st.queue.take d).filter (fun x => !x.healthy) =
          st.queue.take d := by
        rw [List.filter_eq_self]
        intro a ha
        simp [hall a ha]
      rw [h2, hfil, List.length_take]
      omega
    · exact absurd hres (by simp)

/-- Witness for C1 at a concrete run: a pool queuing an unhealthy
resource then a healthy one, retrieved with a never-done context. -/
theorem C1_unhealthy_dequeue_terminated_once_witness :
    ∃ d : Nat,
      d ≤ (PoolState.mk [⟨1, false⟩, ⟨2, true⟩] 2).queue.length ∧
      (getResource ⟨none, CtxErr.canceled⟩ []
          ⟨[⟨1, false⟩, ⟨2, true⟩], 2⟩).2.1.queue =
        (PoolState.mk [⟨1, false⟩, ⟨2, true⟩] 2).queue.drop d ∧
      (getResource ⟨none, CtxErr.canceled⟩ []
          ⟨[⟨1, false⟩, ⟨2, true⟩], 2⟩).2.1.resourceCount =
        (PoolState.mk [⟨1, false⟩, ⟨2, true⟩] 2).resourceCount - (d : Int) ∧
      (getResource ⟨none, CtxErr.canceled⟩ []
          ⟨[⟨1, false⟩, ⟨2, true⟩], 2⟩).2.2 =
        ((PoolState.mk [⟨1, false⟩, ⟨2, true⟩] 2).queue.take d).filter
          (fun x => !x.healthy) ∧
      (getResource ⟨none, CtxErr.canceled⟩ []
          ⟨[⟨1, false⟩, ⟨2, true⟩], 2⟩).2.2.Nodup ∧
      (∀ x ∈ (getResource ⟨none, CtxErr.canceled⟩ []
          ⟨[⟨1, false⟩, ⟨2, true⟩], 2⟩).2.2, x.healthy = false) ∧
      (∀ r, (getResource ⟨none, CtxErr.canceled⟩ []
            ⟨[⟨1, false⟩, ⟨2, true⟩], 2⟩).1 = .returned (some r) none →
        r.healthy = true ∧
        r ∉ (getResource ⟨none, CtxErr.canceled⟩ []
            ⟨[⟨1, false⟩, ⟨2, true⟩], 2⟩).2.2 ∧
        (getResource ⟨none, CtxErr.canceled⟩ []
            ⟨[⟨1, false⟩, ⟨2, true⟩], 2⟩).2.2.length + 1 = d) ∧
      (∀ e, (getResource ⟨none, CtxErr.canceled⟩ []
            ⟨[⟨1, false⟩, ⟨2, true⟩], 2⟩).1 = .returned none (some e) →
        (getResource ⟨none, CtxErr.canceled⟩ []
            ⟨[⟨1, false⟩, ⟨2, true⟩], 2⟩).2.2.length = d) :=
  C1_unhealthy_dequeue_terminated_once ⟨none, CtxErr.canceled⟩ []
    ⟨[⟨1, false⟩, ⟨2, true⟩], 2⟩ (by decide)

/-- Claim C10: whenever GetResource returns, exactly one of the resource
and the error is present: a success carries a resource and a nil error, a
failure carries no resource and an error; never both nil or both set. -/
theorem C10_resource_xor_error (ctx : Ctx) (sched : List Bool)
    (st : PoolState) (res : Option Resource) (e : Option CtxErr)
    (h : (getResource ctx sched st).1 = .returned res e) :
    (res.isSome = true ∧ e = none) ∨ (res = none ∧ e.isSome = true) := by
  obtain ⟨d, _, _, _, h3, _⟩ := getResource_spec ctx sched st
  rcases h3 res e h with ⟨hres, he, _⟩ | ⟨he, r, hres, _⟩
  · right
    exact ⟨hres, by simp [he]⟩
  · left
    exact ⟨by simp [hres], he⟩

/-- Witness for C10 on a concrete successful retrieval. -/
theorem C10_resource_xor_error_witness :
    ((some (Resource.mk 2 true)).isSome = true ∧
      (none : Option CtxErr) = none) ∨
    ((some (Resource.mk 2 true) : Option Resource) = none ∧
      (none : Option CtxErr).isSome = true) :=
  C10_resource_xor_error ⟨none, CtxErr.canceled⟩ []
    ⟨[⟨1, false⟩, ⟨2, true⟩], 2⟩ (some ⟨2, true⟩) none (by decide)

/-- Claim C9: a successful GetResource call returns one resource which
came from the queue and is removed from it, and two successive successful
calls (two callers, each channel handoff delivering to exactly one
receiver) never obtain the same resource, for any contexts and select
schedules, when the queued resources are distinct. -/
theorem C9_no_double_delivery (ctx1 ctx2 : Ctx) (sched1 sched2 : List Bool)
    (st : PoolState) (r1 r2 : Resource) (hnd : st.queue.Nodup)
    (h1 : (getResource ctx1 sched1 st).1 = .returned (some r1) none)
    (h2 : (getResource ctx2 sched2 (getResource ctx1 sched1 st).2.1).1 =
      .returned (some r2) none) :
    r1 ∈ st.queue ∧ r1 ∉ (getResource ctx1 sched1 st).2.1.queue ∧
      r1 ≠ r2 := by
  obtain ⟨d, hd, hst, _, h3, _⟩ := getResource_spec ctx1 sched1 st
  rcases h3 (some r1) none h1 with ⟨hres, _, _⟩ | ⟨_, r1b, hres, _, _, htake, _⟩
  · exact absurd hres (by simp)
  · have hr1 : r1 = r1b := by injection hres
    subst hr1
    have hmem : r1 ∈ st.queue.take d := by
      rw [htake]
      simp
    have hmemq : r1 ∈ st.queue := (List.take_sublist d st.queue).subset hmem
    have hnotdrop : r1 ∉ st.queue.drop d := by
      have hsplit := List.take_append_drop d st.queue
      rw [← hsplit] at hnd
      exact (List.nodup_append.mp hnd).2.2 hmem
    have hq1 : (getResource ctx1 sched1 st).2.1.queue = st.queue.drop d := by
      rw [hst]
    obtain ⟨d2, _, _, _, h3b, _⟩ :=
      getResource_spec ctx2 sched2 (getResource ctx1 sched1 st).2.1
    rcases h3b (some r2) none h2 with ⟨hres2, _, _⟩ |
      ⟨_, r2b, hres2, _, _, htake2, _⟩
    · exact absurd hres2 (by simp)
    · have hr2 : r2 = r2b := by injection hres2
      subst hr2
      have hmem2 : r2 ∈ (getResource ctx1 sched1 st).2.1.queue := by
        refine (List.take_sublist d2 _).subset ?_
        rw [htake2]
        simp
      rw [hq1] at hmem2
      refine ⟨hmemq, by rw [hq1]; exact hnotdrop, ?_⟩
      intro heq
      rw [heq] at hnotdrop
      exact hnotdrop hmem2

/-- Witness for C9 on a concrete pool of two distinct healthy
resources retrieved twice. -/
theorem C9_no_double_delivery_witness :
    (⟨1, true⟩ : Resource) ∈
      (PoolState.mk [⟨1, true⟩, ⟨2, true⟩] 2).queue ∧
    (⟨1, true⟩ : Resource) ∉
      (getResource ⟨none, CtxErr.canceled⟩ []
        ⟨[⟨1, true⟩, ⟨2, true⟩], 2⟩).2.1.queue ∧
    (⟨1, true⟩ : Resource) ≠ ⟨2, true⟩ :=
  C9_no_double_delivery ⟨none, CtxErr.canceled⟩ ⟨none, CtxErr.canceled⟩ [] []
    ⟨[⟨1, true⟩, ⟨2, true⟩], 2⟩ ⟨1, true⟩ ⟨2, true⟩
    (by decide) (by decide) (by decide)

/-- Counterexample to claim C4 as stated: with a context already expired
at call time (Err = canceled) and a healthy resource concurrently
available, the select race resolved in favor of the resource case makes
the call return that resource with a nil error rather than aborting with
the context error. -/
theorem C4_counterexample :
    (getResource ⟨some 0, CtxErr.canceled⟩ [true]
        ⟨[⟨1, true⟩], 1⟩).1 = .returned (some ⟨1, true⟩) none ∧
    (getResource ⟨some 0, CtxErr.canceled⟩ [true]
        ⟨[⟨1, true⟩], 1⟩).1 ≠ .returned none (some CtxErr.canceled) ∧
    (getResource ⟨some 0, CtxErr.canceled⟩ [true]
        ⟨[⟨1, true⟩], 1⟩).1 ≠ .returned none (some CtxErr.deadlineExceeded) := by
  decide

/-- Claim C4 (amended): a GetResource call that aborts via the
cancellation branch returns exactly the context's distinguishable error
with no resource, and the abort leaves the queue and the enqueued-count
unaffected apart from the unhealthy discards made before it — in
particular, with an all-healthy queue the state is exactly unchanged; a
call entered with an already-expired context and no available resource
returns the context error immediately, never blocking and touching
nothing. (When the expired context races against an available resource,
the select may instead deliver the resource: see the counterexample.) -/
theorem C4_cancellation_error (ctx : Ctx) (sched : List Bool)
    (st : PoolState) :
    (ctx.doneAt.isSome = true → st.queue = [] →
      getResource ctx sched st = (.returned none (some ctx.err), st, [])) ∧
    (∀ e, (getResource ctx sched st).1 = .returned none (some e) →
      e = ctx.err ∧
      ∃ d : Nat, d ≤ st.queue.length ∧
        (getResource ctx sched st).2.1.queue = st.queue.drop d ∧
        (getResource ctx sched st).2.1.resourceCount =
          st.resourceCount - (d : Int) ∧
        (∀ x ∈ st.queue.take d, x.healthy = false)) ∧
    ((∀ x ∈ st.queue, x.healthy = true) →
      ∀ e, (getResource ctx sched st).1 = .returned none (some e) →
      (getResource ctx sched st).2.1 = st) := by
  obtain ⟨d, hd, hst, _, h3, _⟩ := getResource_spec ctx sched st
  refine ⟨?_, ?_, ?_⟩
  · intro hdone hq
    obtain ⟨k, hk⟩ := Option.isSome_iff_exists.mp hdone
    obtain ⟨q, c⟩ := st
    simp only at hq
    subst hq
    simp [getResource, getLoop, hk]
  · intro e he
    rcases h3 none (some e) he with ⟨_, he2, hall⟩ | ⟨_, r, hres, _⟩
    · have hee : e = ctx.err := by injection he2
      exact ⟨hee, d, hd, by rw [hst], by rw [hst], hall⟩
    · exact absurd hres (by simp)
  · intro hhealthy e he
    rcases h3 none (some e) he with ⟨_, _, hall⟩ | ⟨_, r, hres, _⟩
    · have htake : st.queue.take d = [] := by
        rw [List.eq_nil_iff_forall_not_mem]
        intro x hx
        have h1 := hall x hx
        have h2 := hhealthy x ((List.take_sublist d st.queue).subset hx)
        rw [h2] at h1
        simp at h1
      have hd0 : d = 0 := by
        rcases List.take_eq_nil_iff.mp htake with h | h
        · exact h
        · rw [h] at hd
          simpa using hd
      rw [hst, hd0]
      simp
    · exact absurd hres (by simp)

/-- Witness for the amended C4: an already-expired context on an empty
pool fails immediately with the deadline error and changes nothing. -/
theorem C4_cancellation_error_witness :
    getResource ⟨some 0, CtxErr.deadlineExceeded⟩ [] ⟨[], 5⟩ =
      (.returned none (some CtxErr.deadlineExceeded), ⟨[], 5⟩, []) :=
  (C4_cancellation_error ⟨some 0, CtxErr.deadlineExceeded⟩ [] ⟨[], 5⟩).1
    (by decide) (by decide)

/-- Claim C3: AddResource fails exactly when the resource is unhealthy;
the failure is the synchronous rejected-insertion error, leaves the state
(hence Size) unchanged; a healthy resource is enqueued with no error and
the count incremented; no AddResource call ever terminates a resource. -/
theorem C3_addResource_health_gate (st : PoolState) (res : Resource) :
    ((addResource st res).2.1.isSome = true ↔ res.healthy = false) ∧
    (res.healthy = false →
      (addResource st res).2.1 =
        some "Cannot add unhealthy resources to the pool" ∧
      (addResource st res).1 = st ∧
      size (addResource st res).1 = size st) ∧
    (res.healthy = true →
      (addResource st res).2.1 = none ∧
      (addResource st res).1.queue = st.queue ++ [res] ∧
      (addResource st res).1.resourceCount = st.resourceCount + 1) ∧
    (addResource st res).2.2 = [] := by
  cases hres : res.healthy <;> simp [addResource, hres, size]

/-- Witness for C3: adding an unhealthy resource to a fresh pool is
rejected with the error and no state change. -/
theorem C3_addResource_health_gate_witness :
    (addResource ⟨[], 0⟩ ⟨7, false⟩).2.1 =
      some "Cannot add unhealthy resources to the pool" ∧
    (addResource ⟨[], 0⟩ ⟨7, false⟩).1 = ⟨[], 0⟩ ∧
    size (addResource ⟨[], 0⟩ ⟨7, false⟩).1 = size ⟨[], 0⟩ :=
  (C3_addResource_health_gate ⟨[], 0⟩ ⟨7, false⟩).2.1 (by decide)

/-- The drain loop of Shutdown terminates exactly the remaining queued
resources, in order, and empties the queue leaving the count alone. -/
theorem shutdownLoop_spec (count : Int) :
    ∀ (q term : List Resource),
      shutdownLoop count term q =
        ({ queue := [], resourceCount := count }, term ++ q)
  | [], term => by simp [shutdownLoop]
  | r :: rest, term => by
    rw [shutdownLoop, shutdownLoop_spec count rest (term ++ [r])]
    simp

/-- Claim C5: Shutdown terminates exactly the resources queued at call
time — each as often as it is queued, hence exactly once when queued
once — empties the queue, and terminates nothing that was not queued;
the terminations are part of the call's own synchronous result, so they
are complete when Shutdown returns. -/
theorem C5_shutdown_drains_and_terminates (st : PoolState) :
    (shutdown st).2 = st.queue ∧
    (shutdown st).1.queue = [] ∧
    (∀ r : Resource, ((shutdown st).2).count r = st.queue.count r) ∧
    (∀ r : Resource, r ∉ st.queue → r ∉ (shutdown st).2) := by
  have h : shutdown st =
      ({ queue := [], resourceCount := st.resourceCount }, st.queue) := by
    rw [shutdown, shutdownLoop_spec]
    simp
  rw [h]
  exact ⟨rfl, rfl, fun r => rfl, fun r hr => hr⟩

/-- Witness for C5 on a two-resource pool: both are terminated (the
healthy one once), the queue ends empty, and an unqueued resource is not
terminated. -/
theorem C5_shutdown_drains_and_terminates_witness :
    (shutdown ⟨[⟨1, true⟩, ⟨2, false⟩], 5⟩).2 =
      [⟨1, true⟩, ⟨2, false⟩] ∧
    (shutdown ⟨[⟨1, true⟩, ⟨2, false⟩], 5⟩).1.queue = [] ∧
    ((shutdown ⟨[⟨1, true⟩, ⟨2, false⟩], 5⟩).2).count ⟨1, true⟩ =
      ([⟨1, true⟩, ⟨2, false⟩] : List Resource).count ⟨1, true⟩ ∧
    (⟨9, true⟩ : Resource) ∉ (shutdown ⟨[⟨1, true⟩, ⟨2, false⟩], 5⟩).2 :=
  ⟨(C5_shutdown_drains_and_terminates ⟨[⟨1, true⟩, ⟨2, false⟩], 5⟩).1,
    (C5_shutdown_drains_and_terminates ⟨[⟨1, true⟩, ⟨2, false⟩], 5⟩).2.1,
    (C5_shutdown_drains_and_terminates ⟨[⟨1, true⟩, ⟨2, false⟩], 5⟩).2.2.1 _,
    (C5_shutdown_drains_and_terminates ⟨[⟨1, true⟩, ⟨2, false⟩], 5⟩).2.2.2 _
      (by decide)⟩

/-- Counterexample to claim C6 as stated: Shutdown drains the queue but
never updates resourceCount, so after shutting down a pool holding one
resource, Size still reports 1 while nothing is enqueued — the count no
longer reflects the resources logically in the pool. -/
theorem C6_counterexample :
    (shutdown ⟨[⟨1, true⟩], 1⟩).1.queue = [] ∧
    size (shutdown ⟨[⟨1, true⟩], 1⟩).1 = 1 := by
  constructor
  · rw [shutdown, shutdownLoop_spec]
  · rw [size, shutdown, shutdownLoop_spec]

/-- Claim C6 (amended): the invariant that the count equals the number of
enqueued resources is preserved by AddResource and by GetResource, but
not by Shutdown: Shutdown empties the queue while leaving the count
unchanged, so after a Shutdown on a nonempty pool, Size overstates the
pool content. -/
theorem C6_size_invariant (st : PoolState) :
    (∀ res, sizeInvariant st → sizeInvariant (addResource st res).1) ∧
    (∀ ctx sched, sizeInvariant st →
      sizeInvariant (getResource ctx sched st).2.1) ∧
    ((shutdown st).1.resourceCount = st.resourceCount ∧
      (shutdown st).1.queue = []) := by
  refine ⟨?_, ?_, ?_⟩
  · intro res hinv
    cases hres : res.healthy <;>
      simp_all [addResource, sizeInvariant]
  · intro ctx sched hinv
    obtain ⟨d, hd, hst, _, _, _⟩ := getResource_spec ctx sched st
    simp only [sizeInvariant] at hinv ⊢
    rw [hst]
    simp only [List.length_drop]
    omega
  · rw [shutdown, shutdownLoop_spec]
    exact ⟨rfl, rfl⟩

/-- Witness for the amended C6: the invariant survives an add and a get
on concrete states, and a concrete Shutdown keeps the count while
emptying the queue. -/
theorem C6_size_invariant_witness :
    sizeInvariant (addResource ⟨[], 0⟩ ⟨1, true⟩).1 ∧
    sizeInvariant
      (getResource ⟨none, CtxErr.canceled⟩ [] ⟨[⟨1, true⟩], 1⟩).2.1 ∧
    ((shutdown ⟨[⟨1, true⟩], 1⟩).1.resourceCount = 1 ∧
      (shutdown ⟨[⟨1, true⟩], 1⟩).1.queue = []) :=
  ⟨(C6_size_invariant ⟨[], 0⟩).1 ⟨1, true⟩ (by simp [sizeInvariant]),
    (C6_size_invariant ⟨[⟨1, true⟩], 1⟩).2.1 ⟨none, CtxErr.canceled⟩ []
      (by simp [sizeInvariant]),
    (C6_size_invariant ⟨[⟨1, true⟩], 1⟩).2.2⟩

/-- Balance lemma for operation traces: starting from an all-healthy
queue and running a trace whose added resources are all healthy, the
final queue stays all healthy and the books balance: final queue length
plus successful gets equals initial queue length plus successful adds. -/
theorem runOps_balance :
    ∀ (ops : List Op) (st : PoolState),
      (∀ r : Resource, Op.add r ∈ ops → r.healthy = true) →
      (∀ x ∈ st.queue, x.healthy = true) →
      (∀ x ∈ (runOps ops st).1.queue, x.healthy = true) ∧
      (runOps ops st).1.queue.length + (runOps ops st).2.2 =
        st.queue.length + (runOps ops st).2.1
  | [], st => by
    intro _ hq
    simpa [runOps] using hq
  | Op.add r :: ops, st => by
    intro hops hq
    have hr : r.healthy = true := hops r (List.mem_cons_self _ _)
    have hadd : addResource st r =
        ({ queue := st.queue ++ [r], resourceCount := st.resourceCount + 1 },
          none, []) := by
      simp [addResource, hr]
    have hq2 : ∀ x ∈ st.queue ++ [r], x.healthy = true := by
      intro x hx
      rcases List.mem_append.mp hx with hx | hx
      · exact hq x hx
      · rw [List.mem_singleton.mp hx]
        exact hr
    obtain ⟨ih1, ih2⟩ := runOps_balance ops
      { queue := st.queue ++ [r], resourceCount := st.resourceCount + 1 }
      (fun x hx => hops x (List.mem_cons_of_mem _ hx)) hq2
    constructor
    · simpa [runOps, hadd] using ih1
    · have hlen : (st.queue ++ [r]).length = st.queue.length + 1 := by simp
      simp only [runOps, hadd] at *
      simp only [Option.isNone_none, if_true] at *
      omega
  | Op.get :: ops, st => by
    intro hops hq
    cases hqq : st.queue with
    | nil =>
      have hget : getResource expiredCtx [] st =
          (.returned none (some CtxErr.deadlineExceeded),
            { queue := [], resourceCount := st.resourceCount }, []) := by
        rw [getResource, hqq]
        simp [getLoop, expiredCtx]
      obtain ⟨ih1, ih2⟩ := runOps_balance ops
        { queue := [], resourceCount := st.resourceCount }
        (fun x hx => hops x (List.mem_cons_of_mem _ hx)) (by simp)
      constructor
      · simpa [runOps, hget] using ih1
      · simp only [runOps, hget] at *
        omega
    | cons r rest =>
      have hr : r.healthy = true := by
        apply hq
        rw [hqq]
        exact List.mem_cons_self _ _
      have hget : getResource expiredCtx [] st =
          (.returned (some r) none,
            { queue := rest, resourceCount := st.resourceCount - 1 }, []) := by
        rw [getResource, hqq]
        simp [getLoop, expiredCtx, Ctx.isDone, hr]
      have hq2 : ∀ x ∈ rest, x.healthy = true := by
        intro x hx
        apply hq
        rw [hqq]
        exact List.mem_cons_of_mem _ hx
      obtain ⟨ih1, ih2⟩ := runOps_balance ops
        { queue := rest, resourceCount := st.resourceCount - 1 }
        (fun x hx => hops x (List.mem_cons_of_mem _ hx)) hq2
      constructor
      · simpa [runOps, hget] using ih1
      · simp only [runOps, hget] at *
        simp only [List.length_cons]
        omega

/-- Claim C2: for every finite sequence of AddResource and GetResource
calls on a fresh pool in which every added resource is healthy, the
number of resources retrievable at quiescence (the queue content) equals
the number of successful adds minus the number of successful gets. -/
theorem C2_conservation (ops : List Op)
    (h : ∀ r : Resource, Op.add r ∈ ops → r.healthy = true) :
    (runOps ops newPool).1.queue.length + (runOps ops newPool).2.2 =
      (runOps ops newPool).2.1 := by
  obtain ⟨_, hbal⟩ := runOps_balance ops newPool h (by simp [newPool])
  simpa [newPool] using hbal

/-- Witness for C2: two healthy adds and one get leave one retrievable
resource, balancing 1 + 1 = 2. -/
theorem C2_conservation_witness :
    (runOps [Op.add ⟨1, true⟩, Op.add ⟨2, true⟩, Op.get]
        newPool).1.queue.length +
      (runOps [Op.add ⟨1, true⟩, Op.add ⟨2, true⟩, Op.get] newPool).2.2 =
    (runOps [Op.add ⟨1, true⟩, Op.add ⟨2, true⟩, Op.get] newPool).2.1 := by
  have h : ∀ r : Resource,
      Op.add r ∈ [Op.add ⟨1, true⟩, Op.add ⟨2, true⟩, Op.get] →
      r.healthy = true := by
    intro r hr
    simp only [List.mem_cons, List.not_mem_nil, or_false] at hr
    rcases hr with h1 | h1 | h1
    · injection h1 with h2
      rw [h2]
    · injection h1 with h2
      rw [h2]
    · exact absurd h1 (by simp)
  exact C2_conservation [Op.add ⟨1, true⟩, Op.add ⟨2, true⟩, Op.get] h

/-- Success run of the Wizard population loop: when the n factory calls
starting at index i all return healthy resources, the loop reports no
error, appends n resources to the pool (count up by n), and preserves
all-healthiness of the queue. -/
theorem newWizardLoop_ok (factory : Nat → Except String Resource) :
    ∀ (n i : Nat) (p : PoolState),
      (∀ j, i ≤ j → j < i + n →
        ∃ r, factory j = Except.ok r ∧ r.healthy = true) →
      (newWizardLoop factory i n p).2 = none ∧
      (newWizardLoop factory i n p).1.queue.length = p.queue.length + n ∧
      (newWizardLoop factory i n p).1.resourceCount =
        p.resourceCount + (n : Int) ∧
      ((∀ x ∈ p.queue, x.healthy = true) →
        ∀ x ∈ (newWizardLoop factory i n p).1.queue, x.healthy = true)
  | 0, i, p => by
    intro _
    simp [newWizardLoop]
  | n + 1, i, p => by
    intro hgood
    obtain ⟨r, hfac, hr⟩ := hgood i (Nat.le_refl i) (by omega)
    have hadd : addResource p r =
        ({ queue := p.queue ++ [r], resourceCount := p.resourceCount + 1 },
          none, []) := by
      simp [addResource, hr]
    have hred : newWizardLoop factory i (n + 1) p =
        newWizardLoop factory (i + 1) n
          { queue := p.queue ++ [r], resourceCount := p.resourceCount + 1 } := by
      simp only [newWizardLoop, hfac, hadd]
    obtain ⟨ih1, ih2, ih3, ih4⟩ := newWizardLoop_ok factory n (i + 1)
      { queue := p.queue ++ [r], resourceCount := p.resourceCount + 1 }
      (fun j hj1 hj2 => hgood j (by omega) (by omega))
    refine ⟨by rw [hred]; exact ih1, ?_, ?_, ?_⟩
    · rw [hred, ih2]
      simp
      omega
    · rw [hred, ih3]
      push_cast
      ring
    · intro hqh
      rw [hred]
      apply ih4
      intro x hx
      rcases List.mem_append.mp hx with hx | hx
      · exact hqh x hx
      · rw [List.mem_singleton.mp hx]
        exact hr

/-- Failure run of the Wizard population loop: when the factory calls
before offset k are healthy and the call at offset k errors or yields an
unhealthy resource, the loop surfaces that call's error (the factory
error, or the rejected-insertion message) and the pool retains exactly
the k resources inserted before the failure. -/
theorem newWizardLoop_fail (factory : Nat → Except String Resource) :
    ∀ (k n i : Nat) (p : PoolState), k < n →
      (∀ j, i ≤ j → j < i + k →
        ∃ r, factory j = Except.ok r ∧ r.healthy = true) →
      (∀ e, factory (i + k) = Except.error e →
        (newWizardLoop factory i n p).2 = some e ∧
        (newWizardLoop factory i n p).1.queue.length =
          p.queue.length + k) ∧
      (∀ r, factory (i + k) = Except.ok r → r.healthy = false →
        (newWizardLoop factory i n p).2 =
          some "Cannot add unhealthy resources to the pool" ∧
        (newWizardLoop factory i n p).1.queue.length =
          p.queue.length + k)
  | 0, n, i, p => by
    intro hn _
    obtain ⟨m, rfl⟩ : ∃ m, n = m + 1 := ⟨n - 1, by omega⟩
    constructor
    · intro e hfac
      rw [Nat.add_zero] at hfac
      simp [newWizardLoop, hfac]
    · intro r hfac hr
      rw [Nat.add_zero] at hfac
      have hadd : addResource p r =
          (p, some "Cannot add unhealthy resources to the pool", []) := by
        simp [addResource, hr]
      simp [newWizardLoop, hfac, hadd]
  | k + 1, n, i, p => by
    intro hn hgood
    obtain ⟨m, rfl⟩ : ∃ m, n = m + 1 := ⟨n - 1, by omega⟩
    obtain ⟨r, hfac, hr⟩ := hgood i (Nat.le_refl i) (by omega)
    have hadd : addResource p r =
        ({ queue := p.queue ++ [r], resourceCount := p.resourceCount + 1 },
          none, []) := by
      simp [addResource, hr]
    have hred : newWizardLoop factory i (m + 1) p =
        newWizardLoop factory (i + 1) m
          { queue := p.queue ++ [r], resourceCount := p.resourceCount + 1 } := by
      simp only [newWizardLoop, hfac, hadd]
    obtain ⟨ihe, ihu⟩ := newWizardLoop_fail factory k m (i + 1)
      { queue := p.queue ++ [r], resourceCount := p.resourceCount + 1 }
      (by omega) (fun j hj1 hj2 => hgood j (by omega) (by omega))
    have hidx : i + 1 + k = i + (k + 1) := by omega
    rw [hidx] at ihe ihu
    constructor
    · intro e hfac2
      obtain ⟨h1, h2⟩ := ihe e hfac2
      rw [hred]
      refine ⟨h1, ?_⟩
      rw [h2]
      simp
      omega
    · intro r2 hfac2 hr2
      obtain ⟨h1, h2⟩ := ihu r2 hfac2 hr2
      rw [hred]
      refine ⟨h1, ?_⟩
      rw [h2]
      simp
      omega

/-- Claim C7: NewWizard with a factory whose first n calls all return
healthy resources yields a wizard whose pool holds exactly n healthy
resources (count n) and no error; if instead the first offending call
k < n errors or produces an unhealthy resource, no wizard is returned,
that call's error is surfaced (the factory error, or the rejected-
insertion error), and the k resources inserted before the failure remain
in the pool. -/
theorem C7_newWizard_population (factory : Nat → Except String Resource)
    (n : Nat) :
    ((∀ j, j < n → ∃ r, factory j = Except.ok r ∧ r.healthy = true) →
      (newWizard factory n).2.1 = none ∧
      ∃ w, (newWizard factory n).1 = some w ∧
        w.pool.queue.length = n ∧
        w.pool.resourceCount = (n : Int) ∧
        (∀ x ∈ w.pool.queue, x.healthy = true) ∧
        w.resourceCount = n) ∧
    (∀ k, k < n →
      (∀ j, j < k → ∃ r, factory j = Except.ok r ∧ r.healthy = true) →
      ((∀ e, factory k = Except.error e →
          (newWizard factory n).1 = none ∧
          (newWizard factory n).2.1 = some e ∧
          (newWizard factory n).2.2.queue.length = k) ∧
        (∀ r, factory k = Except.ok r → r.healthy = false →
          (newWizard factory n).1 = none ∧
          (newWizard factory n).2.1 =
            some "Cannot add unhealthy resources to the pool" ∧
          (newWizard factory n).2.2.queue.length = k))) := by
  constructor
  · intro hgood
    obtain ⟨h1, h2, h3, h4⟩ := newWizardLoop_ok factory n 0 newPool
      (fun j hj1 hj2 => hgood j (by omega))
    have hred : newWizard factory n =
        (some (WizardState.mk (newWizardLoop factory 0 n newPool).1 n),
          none, (newWizardLoop factory 0 n newPool).1) := by
      simp only [newWizard, h1]
    rw [hred]
    refine ⟨rfl, _, rfl, ?_, ?_, ?_, rfl⟩
    · simpa [newPool] using h2
    · simpa [newPool] using h3
    · exact h4 (by simp [newPool])
  · intro k hk hgood
    obtain ⟨ihe, ihu⟩ := newWizardLoop_fail factory k n 0 newPool hk
      (fun j hj1 hj2 => hgood j (by omega))
    rw [Nat.zero_add] at ihe ihu
    constructor
    · intro e hfac
      obtain ⟨h1, h2⟩ := ihe e hfac
      have hred : newWizard factory n =
          (none, some e, (newWizardLoop factory 0 n newPool).1) := by
        simp only [newWizard, h1]
      rw [hred]
      refine ⟨rfl, rfl, ?_⟩
      simpa [newPool] using h2
    · intro r hfac hr
      obtain ⟨h1, h2⟩ := ihu r hfac hr
      have hred : newWizard factory n =
          (none, some "Cannot add unhealthy resources to the pool",
            (newWizardLoop factory 0 n newPool).1) := by
        simp only [newWizard, h1]
      rw [hred]
      refine ⟨rfl, rfl, ?_⟩
      simpa [newPool] using h2

/-- Witness for C7: an always-healthy factory with n = 2 yields a wizard
whose pool holds exactly 2 healthy resources. -/
theorem C7_newWizard_population_witness :
    (newWizard (fun j => Except.ok ⟨j, true⟩) 2).2.1 = none ∧
    ∃ w, (newWizard (fun j => Except.ok ⟨j, true⟩) 2).1 = some w ∧
      w.pool.queue.length = 2 ∧
      w.pool.resourceCount = ((2 : Nat) : Int) ∧
      (∀ x ∈ w.pool.queue, x.healthy = true) ∧
      w.resourceCount = 2 :=
  (C7_newWizard_population (fun j => Except.ok ⟨j, true⟩) 2).1
    (fun j _ => ⟨⟨j, true⟩, rfl, rfl⟩)

/-- Claim C8: the Wizard Monitor callback takes no action (pool
unchanged, nothing logged, zero factory calls) on any event other than
UnhealthyResourceTerminated; on that event it invokes the factory exactly
once, and on a factory error or a rejected insertion it logs one line and
stops with the pool unchanged — no retry, so at most one replacement
attempt per lost resource — while a healthy replacement is added to the
pool. -/
theorem C8_wizard_replacement_reaction
    (factory : Nat → Except String Resource) (pool : PoolState)
    (msg : ActionMsg) :
    (msg.action ≠ Action.unhealthyResourceTerminated →
      wizardMonitor factory pool msg = (pool, [], 0)) ∧
    (msg.action = Action.unhealthyResourceTerminated →
      (wizardMonitor factory pool msg).2.2 = 1 ∧
      (∀ e, factory 0 = Except.error e →
        wizardMonitor factory pool msg =
          (pool, ["Error creating replacement resource: " ++ e], 1)) ∧
      (∀ r, factory 0 = Except.ok r → r.healthy = false →
        wizardMonitor factory pool msg =
          (pool, ["Error adding replacement resource to pool: " ++
            "Cannot add unhealthy resources to the pool"], 1)) ∧
      (∀ r, factory 0 = Except.ok r → r.healthy = true →
        wizardMonitor factory pool msg =
          (PoolState.mk (pool.queue ++ [r]) (pool.resourceCount + 1),
            [], 1))) := by
  constructor
  · intro hne
    cases hact : msg.action
    · simp [wizardMonitor, hact]
    · simp [wizardMonitor, hact]
    · exact absurd hact hne
    · simp [wizardMonitor, hact]
  · intro hact
    refine ⟨?_, ?_, ?_, ?_⟩
    · cases hfac : factory 0 with
      | error e => simp [wizardMonitor, hact, hfac]
      | ok r =>
        cases hr : r.healthy with
        | false =>
          have hadd : addResource pool r =
              (pool, some "Cannot add unhealthy resources to the pool",
                []) := by
            simp [addResource, hr]
          simp [wizardMonitor, hact, hfac, hadd]
        | true =>
          have hadd : addResource pool r =
              (PoolState.mk (pool.queue ++ [r]) (pool.resourceCount + 1),
                none, []) := by
            simp [addResource, hr]
          simp [wizardMonitor, hact, hfac, hadd]
    · intro e hfac
      simp [wizardMonitor, hact, hfac]
    · intro r hfac hr
      have hadd : addResource pool r =
          (pool, some "Cannot add unhealthy resources to the pool", []) := by
        simp [addResource, hr]
      simp [wizardMonitor, hact, hfac, hadd]
    · intro r hfac hr
      have hadd : addResource pool r =
          (PoolState.mk (pool.queue ++ [r]) (pool.resourceCount + 1),
            none, []) := by
        simp [addResource, hr]
      simp [wizardMonitor, hact, hfac, hadd]

/-- Witness for C8: a ResourceAdded event triggers no reaction, and an
UnhealthyResourceTerminated event with an erroring factory logs once,
keeps the pool, and makes exactly one factory call. -/
theorem C8_wizard_replacement_reaction_witness :
    wizardMonitor (fun _ => Except.error "boom") ⟨[], 0⟩
      ⟨0, Action.resourceAdded⟩ = (⟨[], 0⟩, [], 0) ∧
    wizardMonitor (fun _ => Except.error "boom") ⟨[], 0⟩
      ⟨0, Action.unhealthyResourceTerminated⟩ =
      (⟨[], 0⟩, ["Error creating replacement resource: " ++ "boom"], 1) :=
  ⟨(C8_wizard_replacement_reaction (fun _ => Except.error "boom") ⟨[], 0⟩
      ⟨0, Action.resourceAdded⟩).1 (by decide),
    ((C8_wizard_replacement_reaction (fun _ => Except.error "boom") ⟨[], 0⟩
      ⟨0, Action.unhealthyResourceTerminated⟩).2 rfl).2.1 "boom" rfl⟩

end Resourcery
